import Mathlib

/-!
Formal model of the site-info browser extension content script
(src/content.js), together with theorems about its analysis engine.

The content script is embedded shallowly:

* DOM state observed by the script (computed styles, geometry, text
  lengths, global bindings probed by detection rules) is passed in
  explicitly as data.
* JavaScript Map and Set objects are modelled as insertion-ordered
  association lists, matching the iteration-order guarantees the code
  relies on.
* `Array.prototype.sort` with a consistent comparator is stable, so it
  is modelled with `List.mergeSort` (stable) under the comparator
  translated from the source.
* Code that can throw is modelled with `Except String`; a caught
  exception carries its message string.
* JavaScript numbers are modelled exactly: element geometry and counts
  as `Nat`, font-size arithmetic as `ℚ` (the source only rounds,
  divides and compares small decimal values, where exact rational
  arithmetic agrees with the observable double behaviour).
-/

namespace SiteInfoExt

/-! ## Technology detection (content.js, detectTechnologies)

Every detection predicate in the source reads only ambient DOM or
global-object state and is invoked through the wrapper

  function safeDetect(fn) (content.js lines 293-300)

so a single rule is fully described by the outcome of its wrapped
thunk: either a truthiness value, or a thrown error message.  The
environment below records that outcome for each of the call sites of
safeDetect, in source order. -/

deriving instance DecidableEq for Except

/-- Outcome of one detection thunk: `Except.ok b` when `fn()` returned
a value of truthiness `b`, `Except.error m` when it threw an error with
message `m`. -/
abbrev DetectResult := Except String Bool

/-- content.js lines 293-300: returns the truthiness of `fn() || false`
and converts a thrown error into `false`. -/
def safeDetect (r : DetectResult) : Bool :=
  match r with
  | .ok b => b
  | .error _ => false

/-- Outcomes of the wrapped detection thunks of detectTechnologies, one
field per safeDetect call site, in source order (content.js lines
303-461). -/
structure Env where
  react : DetectResult
  nextjs : DetectResult
  angular : DetectResult
  vue : DetectResult
  nuxt : DetectResult
  svelte : DetectResult
  vite : DetectResult
  gsap : DetectResult
  anime : DetectResult
  threejs : DetectResult
  framer : DetectResult
  tailwind : DetectResult
  bootstrap : DetectResult
  mui : DetectResult
  googleAnalytics : DetectResult
  facebookPixel : DetectResult
  vercel : DetectResult
  netlify : DetectResult
  githubPages : DetectResult
  wordpress : DetectResult
  shopify : DetectResult
  wix : DetectResult
  squarespace : DetectResult
  jquery : DetectResult
  lodash : DetectResult
  momentjs : DetectResult
  d3 : DetectResult
  chartjs : DetectResult
  axios : DetectResult
  graphql : DetectResult
deriving Repr, DecidableEq

/-- The `tech` result object of detectTechnologies (content.js lines
284-290). -/
structure Tech where
  frameworks : List String
  libraries : List String
  analytics : List String
  hosting : Option String
  tools : List String
deriving Repr, DecidableEq

/-- The hostingClues table (content.js lines 415-423), in source
order.  Each detector in the source is itself a safeDetect-wrapped
thunk, so its outcome is one environment field. -/
def hostingClues (env : Env) : List (String × DetectResult) :=
  [("Vercel", env.vercel),
   ("Netlify", env.netlify),
   ("GitHub Pages", env.githubPages),
   ("WordPress", env.wordpress),
   ("Shopify", env.shopify),
   ("Wix", env.wix),
   ("Squarespace", env.squarespace)]

/-- The for-loop over hostingClues (content.js lines 425-430): the
first truthy detector sets the hosting value and the loop breaks. -/
def hostingLoop : List (String × DetectResult) → Option String
  | [] => none
  | (platform, d) :: rest =>
      if safeDetect d then some platform else hostingLoop rest

/-- The additionalTools table (content.js lines 433-462), in source
order. -/
def additionalTools (env : Env) : List (String × DetectResult) :=
  [("jQuery", env.jquery),
   ("Lodash", env.lodash),
   ("Moment.js", env.momentjs),
   ("D3.js", env.d3),
   ("Chart.js", env.chartjs),
   ("Axios", env.axios),
   ("GraphQL", env.graphql)]

/-- additionalTools.forEach (content.js lines 464-468): push the name
of every tool whose wrapped detector is truthy onto `tech.tools`. -/
def appendTools (init : List String) (tools : List (String × DetectResult)) : List String :=
  tools.foldl (fun acc t => if safeDetect t.2 then acc ++ [t.1] else acc) init

/-- detectTechnologies (content.js lines 283-471).  Labels are pushed
onto each category in source order; the Next.js and Nuxt.js sub-rules
run only after their parent rule succeeded. -/
def detectTechnologies (env : Env) : Tech :=
  let frameworks :=
    (if safeDetect env.react then
       "React" :: (if safeDetect env.nextjs then ["Next.js"] else [])
     else []) ++
    (if safeDetect env.angular then ["Angular"] else []) ++
    (if safeDetect env.vue then
       "Vue.js" :: (if safeDetect env.nuxt then ["Nuxt.js"] else [])
     else []) ++
    (if safeDetect env.svelte then ["Svelte"] else [])
  let toolsHead := if safeDetect env.vite then ["Vite"] else []
  let libraries :=
    (if safeDetect env.gsap then ["GSAP"] else []) ++
    (if safeDetect env.anime then ["Anime.js"] else []) ++
    (if safeDetect env.threejs then ["Three.js"] else []) ++
    (if safeDetect env.framer then ["Framer Motion"] else []) ++
    (if safeDetect env.tailwind then ["Tailwind CSS"] else []) ++
    (if safeDetect env.bootstrap then ["Bootstrap"] else []) ++
    (if safeDetect env.mui then ["Material UI"] else [])
  let analytics :=
    (if safeDetect env.googleAnalytics then ["Google Analytics"] else []) ++
    (if safeDetect env.facebookPixel then ["Facebook Pixel"] else [])
  let hosting := hostingLoop (hostingClues env)
  let tools := appendTools toolsHead (additionalTools env)
  ⟨frameworks, libraries, analytics, hosting, tools⟩

/-- Names for the safeDetect call sites, used to state per-rule
properties uniformly. -/
inductive SignalId where
  | react | nextjs | angular | vue | nuxt | svelte | vite | gsap | anime
  | threejs | framer | tailwind | bootstrap | mui | googleAnalytics
  | facebookPixel | vercel | netlify | githubPages | wordpress | shopify
  | wix | squarespace | jquery | lodash | momentjs | d3 | chartjs | axios
  | graphql
deriving Repr, DecidableEq

/-- Replace the outcome of a single detection thunk. -/
def setSignal (env : Env) : SignalId → DetectResult → Env
  | .react, r => { env with react := r }
  | .nextjs, r => { env with nextjs := r }
  | .angular, r => { env with angular := r }
  | .vue, r => { env with vue := r }
  | .nuxt, r => { env with nuxt := r }
  | .svelte, r => { env with svelte := r }
  | .vite, r => { env with vite := r }
  | .gsap, r => { env with gsap := r }
  | .anime, r => { env with anime := r }
  | .threejs, r => { env with threejs := r }
  | .framer, r => { env with framer := r }
  | .tailwind, r => { env with tailwind := r }
  | .bootstrap, r => { env with bootstrap := r }
  | .mui, r => { env with mui := r }
  | .googleAnalytics, r => { env with googleAnalytics := r }
  | .facebookPixel, r => { env with facebookPixel := r }
  | .vercel, r => { env with vercel := r }
  | .netlify, r => { env with netlify := r }
  | .githubPages, r => { env with githubPages := r }
  | .wordpress, r => { env with wordpress := r }
  | .shopify, r => { env with shopify := r }
  | .wix, r => { env with wix := r }
  | .squarespace, r => { env with squarespace := r }
  | .jquery, r => { env with jquery := r }
  | .lodash, r => { env with lodash := r }
  | .momentjs, r => { env with momentjs := r }
  | .d3, r => { env with d3 := r }
  | .chartjs, r => { env with chartjs := r }
  | .axios, r => { env with axios := r }
  | .graphql, r => { env with graphql := r }

/-! ## The analysis engine (content.js, top-level IIFE)

The top-level script (content.js lines 2-58) guards on the publication
slot `window.__SITE_INFO__`, runs the three analyzers each inside its
own try/catch, assembles the final object and stores it in the slot.
The three analyzer runs and the page-metadata reads are the only
effectful inputs; they are passed in explicitly.  Section types are
parameters because the orchestrator treats analyzer outputs as opaque
values. -/

/-- Page metadata read during report assembly (content.js lines
45-47): `window.location.href`, `document.title` and
`new Date().toISOString()`. -/
structure PageMeta where
  url : String
  title : String
  timestamp : String
deriving Repr, DecidableEq

/-- The `siteInfo` object (content.js lines 41-48).  A section holds
`Except.ok v` for a normal analyzer result `v` and `Except.error m`
for the `error: m` object installed by the analyzer's catch block. -/
structure SiteReport (T C K : Type) where
  typography : Except String T
  colors : Except String C
  technologies : Except String K
  url : String
  title : String
  timestamp : String
deriving Repr, DecidableEq

/-- A value stored in `window.__SITE_INFO__`: the transient sentinel
(line 13), a completed report (line 50), or the engine-level failure
object (lines 54-57). -/
inductive Published (T C K : Type) where
  | analyzing
  | report : SiteReport T C K → Published T C K
  | failed : String → String → Published T C K
deriving Repr, DecidableEq

/-- Effectful inputs of one engine run: the outcome of each analyzer
call, the metadata reads (which the outer try/catch also covers), and
the timestamp taken in the outer catch block. -/
structure EngineEnv (T C K : Type) where
  typographyRun : Except String T
  colorsRun : Except String C
  technologiesRun : Except String K
  meta : Except String PageMeta
  errorTimestamp : String
deriving Repr, DecidableEq

/-- Assembly of the final `siteInfo` object (content.js lines 16-48):
each analyzer's try/catch turns its outcome into one section, and the
metadata fields are attached. -/
def assembleSiteInfo (typ : Except String T) (col : Except String C)
    (tec : Except String K) (meta : PageMeta) : SiteReport T C K :=
  ⟨typ, col, tec, meta.url, meta.title, meta.timestamp⟩

/-- One execution of the content script against the publication slot
(content.js lines 2-58).  `none` models an unset
`window.__SITE_INFO__` (the only falsy state it can have); any stored
object is truthy, so the guard at line 7 returns early on `some`. -/
def runContentScript (env : EngineEnv T C K) (slot : Option (Published T C K)) :
    Option (Published T C K) :=
  match slot with
  | some p => some p
  | none =>
      match env.meta with
      | .ok meta =>
          some (.report (assembleSiteInfo env.typographyRun env.colorsRun
            env.technologiesRun meta))
      | .error msg => some (.failed msg env.errorTimestamp)

/-! ## Color extraction (content.js, getColors)

getColors walks every element under `document.body` with a TreeWalker
(content.js line 167) and accumulates five aggregates, then normalizes
and ranks them into the palette object.  An element is modelled by the
computed-style values, geometry and text length the loop body reads. -/

/-- The per-element observations used by the getColors loop body
(content.js lines 169-210): `style.backgroundColor`, `style.color`,
`el.clientWidth`, `el.clientHeight`, `el.textContent`, `el.tagName`,
`style.cursor` and the class list. -/
structure Element where
  tagName : String
  backgroundColor : String
  color : String
  clientWidth : Nat
  clientHeight : Nat
  textContent : String
  cursor : String
  classes : List String
deriving Repr, DecidableEq

/-- An element subtree of the document, rooted at an element node. -/
inductive Dom where
  | node : Element → List Dom → Dom

mutual

/-- Document-order (preorder) listing of an element subtree. -/
def preorder : Dom → List Element
  | .node e cs => e :: preorderList cs

/-- Document-order listing of a forest of element subtrees. -/
def preorderList : List Dom → List Element
  | [] => []
  | t :: ts => preorder t ++ preorderList ts

end

/-- The sequence of nodes visited by
`createTreeWalker(document.body, SHOW_ELEMENT)` under repeated
`nextNode()` (content.js lines 167-169): every element after the root
in document order, i.e. the strict descendants of the body; the root
itself is never returned by `nextNode`. -/
def walkerSeq : Dom → List Element
  | .node _ cs => preorderList cs

/-- A JavaScript Map with Nat values, as an insertion-ordered
association list. -/
abbrev WeightMap := List (String × Nat)

/-- `m.set(k, (m.get(k) || 0) + v)`: update in place when the key is
present (a JS Map keeps the original insertion position), append
otherwise. -/
def mapAdd (m : WeightMap) (k : String) (v : Nat) : WeightMap :=
  if m.any (fun p => p.1 == k) then
    m.map (fun p => if p.1 == k then (p.1, p.2 + v) else p)
  else m ++ [(k, v)]

/-- `s.add(k)` on a JS Set, as an insertion-ordered duplicate-free
list. -/
def setAdd (s : List String) (k : String) : List String :=
  if s.contains k then s else s ++ [k]

/-- The five aggregates built by the traversal (content.js lines
160-164). -/
structure ColorState where
  colorMap : WeightMap
  buttonColors : List String
  linkColors : List String
  backgroundColors : WeightMap
  textColors : WeightMap
deriving Repr, DecidableEq

/-- Initial aggregates: all empty. -/
def initColorState : ColorState := ⟨[], [], [], [], []⟩

/-- The transparency test of content.js lines 176 and 201:
`bgColor && bgColor !== 'rgba(0, 0, 0, 0)' && bgColor !== 'transparent'`. -/
def bgVisible (bg : String) : Bool :=
  bg != "" && bg != "rgba(0, 0, 0, 0)" && bg != "transparent"

/-- The interactive-element test of content.js lines 195-199. -/
def isInteractive (el : Element) : Bool :=
  el.tagName == "BUTTON" || el.tagName == "A" || el.cursor == "pointer" ||
    el.classes.contains "btn" || el.classes.contains "button"

/-- One iteration of the TreeWalker loop body (content.js lines
169-210). -/
def visitElement (st : ColorState) (el : Element) : ColorState :=
  let st :=
    if bgVisible el.backgroundColor then
      { st with
          backgroundColors :=
            mapAdd st.backgroundColors el.backgroundColor
              (el.clientWidth * el.clientHeight),
          colorMap := mapAdd st.colorMap el.backgroundColor 1 }
    else st
  let st :=
    if el.color != "" then
      { st with
          textColors := mapAdd st.textColors el.color el.textContent.length,
          colorMap := mapAdd st.colorMap el.color 1 }
    else st
  if isInteractive el then
    let st :=
      if bgVisible el.backgroundColor then
        { st with buttonColors := setAdd st.buttonColors el.backgroundColor }
      else st
    if el.tagName == "A" && el.color != "" then
      { st with linkColors := setAdd st.linkColors el.color }
    else st
  else st

/-- The aggregates produced by walking the whole body subtree. -/
def colorStateOf (body : Dom) : ColorState :=
  (walkerSeq body).foldl visitElement initColorState

/-- Value of a decimal digit list. -/
def digitsToNat (ds : List Char) : Nat :=
  ds.foldl (fun n c => n * 10 + (c.toNat - 48)) 0

/-- Consume one expected character. -/
def expectChar (c : Char) : List Char → Option (List Char)
  | x :: xs => if x == c then some xs else none
  | [] => none

/-- Consume a nonempty run of decimal digits. -/
def takeDigits (cs : List Char) : Option (Nat × List Char) :=
  let ds := cs.takeWhile Char.isDigit
  if ds.isEmpty then none
  else some (digitsToNat ds, cs.dropWhile Char.isDigit)

/-- Drop whitespace, the `\s*` parts of the color pattern. -/
def skipWs (cs : List Char) : List Char :=
  cs.dropWhile Char.isWhitespace

/-- Attempt to match the pattern
`rgba?\((\d+),\s*(\d+),\s*(\d+)(?:,\s*([0-9.]+))?\)` at the head of
the character list, yielding the three color components.  Maximal
digit runs are equivalent to the greedy regex here because a closing
parenthesis can never occur inside a digit run. -/
def matchRgbAt (cs : List Char) : Option (Nat × Nat × Nat) := do
  let cs ← expectChar 'r' cs
  let cs ← expectChar 'g' cs
  let cs ← expectChar 'b' cs
  let cs := match expectChar 'a' cs with
    | some rest => rest
    | none => cs
  let cs ← expectChar '(' cs
  let (r, cs) ← takeDigits cs
  let cs ← expectChar ',' cs
  let (g, cs) ← takeDigits (skipWs cs)
  let cs ← expectChar ',' cs
  let (b, cs) ← takeDigits (skipWs cs)
  match expectChar ')' cs with
  | some _ => some (r, g, b)
  | none => do
      let cs ← expectChar ',' cs
      let cs := skipWs cs
      let alpha := cs.takeWhile (fun c => c.isDigit || c == '.')
      if alpha.isEmpty then none
      else do
        let _ ← expectChar ')' (cs.dropWhile (fun c => c.isDigit || c == '.'))
        some (r, g, b)

/-- Unanchored search for the rgb/rgba pattern, like
`String.prototype.match` with a non-anchored regex. -/
def findRgb : List Char → Option (Nat × Nat × Nat)
  | [] => none
  | c :: cs =>
      match matchRgbAt (c :: cs) with
      | some v => some v
      | none => findRgb cs

/-- `n.toString(16)` for a nonnegative integer, lowercase. -/
def toHex (n : Nat) : String :=
  (Nat.toDigits 16 n).asString

/-- `n.toString(16).padStart(2, '0')`. -/
def hexByte (n : Nat) : String :=
  let s := toHex n
  if s.length < 2 then "0" ++ s else s

/-- rgbaToHex (content.js lines 217-230): `none` models the `null`
return for the falsy/transparent inputs; an unrecognized format is
returned unchanged. -/
def rgbaToHex (rgba : String) : Option String :=
  if rgba == "" || rgba == "transparent" || rgba == "rgba(0, 0, 0, 0)" then
    none
  else
    match findRgb rgba.toList with
    | none => some rgba
    | some (r, g, b) => some ("#" ++ hexByte r ++ hexByte g ++ hexByte b)

/-- One entry of the `uniqueColors` map and of `palette.all`
(content.js lines 241-245). -/
structure PaletteEntry where
  color : String
  originalColor : String
  count : Nat
deriving Repr, DecidableEq

/-- One step of the deduplication pass (content.js lines 236-254):
skip colors normalizing to null, insert new hexes at the end, and on a
hex collision keep the position but adopt the higher count and its raw
form. -/
def insertUnique (acc : List PaletteEntry) (c : String) (n : Nat) :
    List PaletteEntry :=
  match rgbaToHex c with
  | none => acc
  | some hex =>
      if acc.any (fun e => e.color == hex) then
        acc.map (fun e =>
          if e.color == hex && n > e.count then
            { e with count := n, originalColor := c }
          else e)
      else acc ++ [⟨hex, c, n⟩]

/-- The `uniqueColors` map (content.js lines 233-254), built over the
entries of `colorMap` in insertion order. -/
def uniqueColors (cm : WeightMap) : List PaletteEntry :=
  cm.foldl (fun acc p => insertUnique acc p.1 p.2) []

/-- The comparator `(a, b) => b.count - a.count` (content.js line
276): `a` may stay before `b` exactly when the comparator is
nonpositive. -/
def entryLe (a b : PaletteEntry) : Bool :=
  decide (b.count ≤ a.count)

/-- The comparator `(a, b) => b[1] - a[1]` used on the weight maps
(content.js lines 213-214). -/
def weightLe (a b : String × Nat) : Bool :=
  decide (b.2 ≤ a.2)

/-- A role field of the palette (content.js lines 258-273): the
canonical hex (null for a transparent raw form) plus the raw color
string. -/
structure RoleColor where
  color : Option String
  originalColor : String
deriving Repr, DecidableEq

/-- The palette object returned by getColors (content.js lines
257-278). -/
structure Palette where
  background : Option RoleColor
  text : Option RoleColor
  accent : Option RoleColor
  link : Option RoleColor
  all : List PaletteEntry
deriving Repr, DecidableEq

/-- Head of a sorted weight list as a role field. -/
def roleOfHead : List (String × Nat) → Option RoleColor
  | [] => none
  | (c, _) :: _ => some ⟨rgbaToHex c, c⟩

/-- First element of a candidate set as a role field
(`Array.from(s)[0]`). -/
def roleOfSet : List String → Option RoleColor
  | [] => none
  | c :: _ => some ⟨rgbaToHex c, c⟩

/-- The `uniqueColors` values sorted by descending count under the
stable sort of content.js line 276. -/
def sortedUnique (cm : WeightMap) : List PaletteEntry :=
  (uniqueColors cm).mergeSort entryLe

/-- Palette assembly (content.js lines 213-278). -/
def buildPalette (st : ColorState) : Palette :=
  { background := roleOfHead (st.backgroundColors.mergeSort weightLe)
    text := roleOfHead (st.textColors.mergeSort weightLe)
    accent := roleOfSet st.buttonColors
    link := roleOfSet st.linkColors
    all := (sortedUnique st.colorMap).take 12 }

/-- getColors (content.js lines 158-281) for a given body subtree. -/
def getColors (body : Dom) : Palette :=
  buildPalette (colorStateOf body)

/-! ## Type-scale derivation (content.js, getTypography lines 113-147)

The type-scale computation consumes two computed-style strings: the
font size of the first h1 element (absent when the page has no h1,
i.e. `headings.h1` is undefined) and the body font size.  JavaScript
number arithmetic on these values is modelled exactly over `ℚ`;
`parseFloat` is modelled on decimal/exponent literals, which covers
every computed font-size string. -/

/-- Parse an unsigned decimal mantissa (`123`, `123.45`, `.45`,
`123.`), returning its value and the rest of the input;  fails when no
digit is present, like `parseFloat` returning NaN. -/
def parseMantissa (cs : List Char) : Option (ℚ × List Char) :=
  let intPart := cs.takeWhile Char.isDigit
  let rest := cs.dropWhile Char.isDigit
  match rest with
  | '.' :: rest2 =>
      let frac := rest2.takeWhile Char.isDigit
      let rest3 := rest2.dropWhile Char.isDigit
      if intPart.isEmpty && frac.isEmpty then none
      else
        some ((digitsToNat intPart : ℚ) +
          (digitsToNat frac : ℚ) / ((10 : ℚ) ^ frac.length), rest3)
  | _ =>
      if intPart.isEmpty then none
      else some ((digitsToNat intPart : ℚ), rest)

/-- Parse an optional exponent suffix (`e5`, `E-3`); a malformed
exponent is ignored, as `parseFloat` stops at the longest valid
prefix. -/
def parseExpSuffix (cs : List Char) : Int :=
  match cs with
  | c :: rest =>
      if c == 'e' || c == 'E' then
        match rest with
        | '+' :: r2 =>
            if (r2.takeWhile Char.isDigit).isEmpty then 0
            else (digitsToNat (r2.takeWhile Char.isDigit) : Int)
        | '-' :: r2 =>
            if (r2.takeWhile Char.isDigit).isEmpty then 0
            else -(digitsToNat (r2.takeWhile Char.isDigit) : Int)
        | r2 =>
            if (r2.takeWhile Char.isDigit).isEmpty then 0
            else (digitsToNat (r2.takeWhile Char.isDigit) : Int)
      else 0
  | [] => 0

/-- `parseFloat` on a computed-style string: skip leading whitespace,
optional sign, decimal mantissa, optional exponent; trailing text such
as a `px` unit is ignored.  `none` models NaN. -/
def parseFloatQ (s : String) : Option ℚ :=
  let cs := s.toList.dropWhile Char.isWhitespace
  let (sign, cs) : ℚ × List Char :=
    match cs with
    | '-' :: r => (-1, r)
    | '+' :: r => (1, r)
    | _ => (1, cs)
  match parseMantissa cs with
  | none => none
  | some (m, rest) => some (sign * m * (10 : ℚ) ^ parseExpSuffix rest)

/-- The commonScales table (content.js lines 123-132): numeric key and
display string, in source order. -/
def commonScales : List (ℚ × String) :=
  [(1067/1000, "Minor Second (1.067)"),
   (1125/1000, "Major Second (1.125)"),
   (12/10, "Minor Third (1.2)"),
   (125/100, "Major Third (1.25)"),
   (1333/1000, "Perfect Fourth (1.333)"),
   (1414/1000, "Augmented Fourth (1.414)"),
   (15/10, "Perfect Fifth (1.5)"),
   (1618/1000, "Golden Ratio (1.618)")]

/-- `Object.keys(commonScales).map(Number)` (content.js line 135). -/
def scaleValues : List ℚ := commonScales.map Prod.fst

/-- The reduce of content.js lines 136-138: fold the closest-scale
comparison over the table values, seeded with the first value.  A
strict comparison keeps the earlier value on distance ties. -/
def closestScale (t : ℚ) : ℚ :=
  match scaleValues with
  | [] => 0
  | v :: vs => vs.foldl (fun prev curr =>
      if |curr - t| < |prev - t| then curr else prev) v

/-- `Math.round(x)`: floor of `x + 1/2`, the JavaScript
round-half-towards-positive rule. -/
def jsRound (x : ℚ) : Int := ⌊x + 1/2⌋

/-- Render the two-decimal ratio `k / 100` the way
`Number.prototype.toString` renders it: decimal form with trailing
zeros removed, no decimal point for whole values. -/
def ratioToString (k : Int) : String :=
  let sign := if k < 0 then "-" else ""
  let n := k.natAbs
  let ip := n / 100
  let fr := n % 100
  if fr == 0 then sign ++ toString ip
  else if fr % 10 == 0 then sign ++ toString ip ++ "." ++ toString (fr / 10)
  else sign ++ toString ip ++ "." ++ (if fr < 10 then "0" else "") ++ toString fr

/-- The typeScale computation (content.js lines 113-147).  The first
argument is `headings.h1.fontSize` when an h1 sample exists, `none`
otherwise; the second is `bodyStyle.fontSize`.  The result is the
final value of the `typeScale` variable: `none` for null, otherwise
the reported string. -/
def computeTypeScale (h1FontSize : Option String) (bodyFontSize : String) :
    Option String :=
  match h1FontSize with
  | none => none
  | some h1fs =>
      match parseFloatQ h1fs, parseFloatQ bodyFontSize with
      | some h1Size, some bodySize =>
          if 0 < bodySize then
            let k := jsRound (h1Size / bodySize * 100)
            let t : ℚ := (k : ℚ) / 100
            let c := closestScale t
            if |c - t| ≤ 1/20 then
              (commonScales.find? (fun p => decide (p.1 = c))).map Prod.snd
            else some (ratioToString k)
          else none
      | _, _ => none

/-! ## Concrete fixtures used by counterexamples and witnesses -/

/-- A body element with no own styles. -/
def plainEl : Element :=
  { tagName := "BODY", backgroundColor := "", color := "", clientWidth := 0,
    clientHeight := 0, textContent := "", cursor := "auto", classes := [] }

/-- A red-backgrounded div with footprint 100. -/
def redEl : Element :=
  { plainEl with
      tagName := "DIV"
      backgroundColor := "rgb(255, 0, 0)"
      clientWidth := 10
      clientHeight := 10 }

/-- A blue-backgrounded div with footprint 50. -/
def blueEl : Element :=
  { plainEl with
      tagName := "DIV"
      backgroundColor := "rgb(0, 0, 255)"
      clientWidth := 10
      clientHeight := 5 }

/-- Two backgrounded children: red with footprint 100, blue with
footprint 50. -/
def pageTwoBg : Dom :=
  .node plainEl [.node redEl [], .node blueEl []]

/-- A div whose computed text color is fully transparent. -/
def transparentTextEl : Element :=
  { plainEl with
      tagName := "DIV"
      backgroundColor := "rgba(0, 0, 0, 0)"
      color := "rgba(0, 0, 0, 0)"
      clientWidth := 3
      clientHeight := 3
      textContent := "hello" }

/-- One child whose computed text color is fully transparent. -/
def pageTransparentText : Dom :=
  .node plainEl [.node transparentTextEl []]

/-- A div whose computed background color has no rgb/rgba form. -/
def unparsedBgEl : Element :=
  { plainEl with
      tagName := "DIV"
      backgroundColor := "foo-color"
      clientWidth := 2
      clientHeight := 2 }

/-- One child whose computed background color has no rgb/rgba form. -/
def pageUnparsedBg : Dom :=
  .node plainEl [.node unparsedBgEl []]

/-- A small gray div. -/
def grayEl : Element :=
  { plainEl with
      tagName := "DIV"
      backgroundColor := "rgb(1, 2, 3)"
      clientWidth := 2
      clientHeight := 2 }

/-- A second small div of a different color. -/
def tealEl : Element :=
  { plainEl with
      tagName := "DIV"
      backgroundColor := "rgb(4, 5, 6)"
      clientWidth := 1
      clientHeight := 1 }

/-- Two children with distinct background colors and equal occurrence
counts, exercising the tie-break order of the palette sort. -/
def pageTieBreak : Dom :=
  .node plainEl [.node grayEl [], .node tealEl []]

/-- A body element carrying a large non-transparent background. -/
def bodyBgEl : Element :=
  { plainEl with
      backgroundColor := "rgb(10, 20, 30)"
      clientWidth := 100
      clientHeight := 100 }

/-- A div with a text color only. -/
def textOnlyEl : Element :=
  { plainEl with
      tagName := "DIV"
      color := "rgb(1, 1, 1)"
      textContent := "x" }

/-- A body carrying the only non-transparent background of the page;
its single child has a text color only. -/
def pageBodyBg : Dom :=
  .node bodyBgEl [.node textOnlyEl []]

/-- An environment in which every detection thunk returns true. -/
def envAllTrue : Env :=
  ⟨.ok true, .ok true, .ok true, .ok true, .ok true, .ok true, .ok true,
   .ok true, .ok true, .ok true, .ok true, .ok true, .ok true, .ok true,
   .ok true, .ok true, .ok true, .ok true, .ok true, .ok true, .ok true,
   .ok true, .ok true, .ok true, .ok true, .ok true, .ok true, .ok true,
   .ok true, .ok true⟩

/-- A concrete engine environment whose three analyzers succeed. -/
def envEngine : EngineEnv Nat Nat Nat :=
  ⟨.ok 1, .ok 2, .ok 3,
   .ok ⟨"https://example.test/", "Example", "2026-01-01T00:00:00.000Z"⟩,
   "2026-01-01T00:00:00.000Z"⟩

/-! ## Theorems -/

/-- C1: the engine is idempotent.  After a completed first call the
publication slot is set, and a second call of the content script in
the same page context (with any DOM state `env2` it would otherwise
observe, showing that no re-scan happens) leaves the published slot
exactly as the first call left it. -/
theorem engine_idempotent (T C K : Type) (env env2 : EngineEnv T C K)
    (slot : Option (Published T C K)) :
    runContentScript env2 (runContentScript env slot) = runContentScript env slot ∧
    (runContentScript env slot).isSome = true := by
  cases slot with
  | some p => simp [runContentScript]
  | none =>
      cases h : env.meta with
      | ok m => simp [runContentScript, h]
      | error e => simp [runContentScript, h]

/-- C5: a detection rule whose wrapped thunk throws behaves exactly as
a rule that reported "not detected": the whole technology report,
including every label appended by every later rule, is the same as
with that thunk returning false, and the wrapper converts the thrown
error to false rather than propagating it. -/
theorem rule_failure_isolated (env : Env) (s : SignalId) (msg : String) :
    detectTechnologies (setSignal env s (.error msg)) =
      detectTechnologies (setSignal env s (.ok false)) ∧
    safeDetect (.error msg) = false := by
  refine ⟨?_, rfl⟩
  cases s <;> rfl

/-- C6: per-analyzer failure isolation.  When exactly one analyzer
throws, its section of the published report is the error object with
the thrown message, the other two sections are exactly the outcomes
those analyzers produce on their own (compare the no-failure assembly
in the last conjunct), and the url, title and timestamp fields are
still assembled. -/
theorem analyzer_failure_isolated (T C K : Type) (env : EngineEnv T C K)
    (meta : PageMeta) (m : String) (hm : env.meta = Except.ok meta) :
    runContentScript { env with typographyRun := .error m } none =
      some (.report (⟨.error m, env.colorsRun, env.technologiesRun,
        meta.url, meta.title, meta.timestamp⟩ : SiteReport T C K)) ∧
    runContentScript { env with colorsRun := .error m } none =
      some (.report (⟨env.typographyRun, .error m, env.technologiesRun,
        meta.url, meta.title, meta.timestamp⟩ : SiteReport T C K)) ∧
    runContentScript { env with technologiesRun := .error m } none =
      some (.report (⟨env.typographyRun, env.colorsRun, .error m,
        meta.url, meta.title, meta.timestamp⟩ : SiteReport T C K)) ∧
    runContentScript env none =
      some (.report (⟨env.typographyRun, env.colorsRun, env.technologiesRun,
        meta.url, meta.title, meta.timestamp⟩ : SiteReport T C K)) := by
  refine ⟨?_, ?_, ?_, ?_⟩ <;>
    simp [runContentScript, assembleSiteInfo, hm]

/-- Witness for C6 at a concrete engine environment: the colors
analyzer throws "boom" and only its section degrades. -/
theorem analyzer_failure_isolated_witness :
    runContentScript { envEngine with colorsRun := .error "boom" } none =
      some (.report (⟨.ok 1, .error "boom", .ok 3, "https://example.test/",
        "Example", "2026-01-01T00:00:00.000Z"⟩ : SiteReport Nat Nat Nat)) :=
  (analyzer_failure_isolated Nat Nat Nat envEngine
    ⟨"https://example.test/", "Example", "2026-01-01T00:00:00.000Z"⟩
    "boom" rfl).2.1

/-- The for-loop with break over a rule table computes the first
match. -/
theorem hostingLoop_eq_find (l : List (String × DetectResult)) :
    hostingLoop l = (l.find? (fun p => safeDetect p.2)).map Prod.fst := by
  induction l with
  | nil => rfl
  | cons hd tl ih =>
      obtain ⟨platform, d⟩ := hd
      by_cases h : safeDetect d
      · simp [hostingLoop, List.find?, h]
      · simp [hostingLoop, List.find?, h, ih]

/-- C4: hosting rules are evaluated in table order and the first
truthy rule wins; `hosting` is `none` when no rule matches, any
reported platform comes from a truthy rule of the table, and a truthy
Vercel rule (the first row) decides the value regardless of every
later rule.  The field is an `Option String`, never a collection. -/
theorem hosting_first_match (env : Env) :
    (detectTechnologies env).hosting =
      ((hostingClues env).find? (fun p => safeDetect p.2)).map Prod.fst ∧
    ((∀ p ∈ hostingClues env, safeDetect p.2 = false) →
      (detectTechnologies env).hosting = none) ∧
    (∀ s, (detectTechnologies env).hosting = some s →
      ∃ p ∈ hostingClues env, p.1 = s ∧ safeDetect p.2 = true) ∧
    (safeDetect env.vercel = true →
      (detectTechnologies env).hosting = some "Vercel") ∧
    (safeDetect env.vercel = false → safeDetect env.netlify = true →
      (detectTechnologies env).hosting = some "Netlify") := by
  have hh : (detectTechnologies env).hosting = hostingLoop (hostingClues env) := rfl
  rw [hh, hostingLoop_eq_find]
  refine ⟨rfl, ?_, ?_, ?_, ?_⟩
  · intro hall
    rw [List.find?_eq_none.mpr ?_]
    · rfl
    · intro p hp
      simp [hall p hp]
  · intro s hs
    rcases Option.map_eq_some'.mp hs with ⟨p, hp, hps⟩
    have hpred := List.find?_some hp
    exact ⟨p, List.mem_of_find?_eq_some hp, hps, by simpa using hpred⟩
  · intro hv
    simp [hostingClues, List.find?, hv]
  · intro hv hn
    simp [hostingClues, List.find?, hv, hn]

/-- Witness for C4: in an environment where every hosting rule
matches, the first table row still decides the value. -/
theorem hosting_first_match_witness :
    (detectTechnologies envAllTrue).hosting = some "Vercel" :=
  (hosting_first_match envAllTrue).2.2.2.1 rfl

/-- The closest-value reduce: its result is the seed or a list member,
its distance to `t` is at most the seed distance, and it is at most
every member distance. -/
theorem closestFold_spec (t : ℚ) :
    ∀ (vs : List ℚ) (v : ℚ),
      ((vs.foldl (fun prev curr => if |curr - t| < |prev - t| then curr else prev) v) = v ∨
        (vs.foldl (fun prev curr => if |curr - t| < |prev - t| then curr else prev) v) ∈ vs) ∧
      |(vs.foldl (fun prev curr => if |curr - t| < |prev - t| then curr else prev) v) - t| ≤
        |v - t| ∧
      (∀ u ∈ vs,
        |(vs.foldl (fun prev curr => if |curr - t| < |prev - t| then curr else prev) v) - t| ≤
          |u - t|) := by
  intro vs
  induction vs with
  | nil => intro v; simp
  | cons hd tl ih =>
      intro v
      simp only [List.foldl_cons, List.mem_cons]
      by_cases h : |hd - t| < |v - t|
      · rw [if_pos h]
        obtain ⟨hmem, hle, hall⟩ := ih hd
        refine ⟨?_, le_trans hle (le_of_lt h), ?_⟩
        · rcases hmem with h1 | h1
          · exact Or.inr (Or.inl h1)
          · exact Or.inr (Or.inr h1)
        · intro u hu
          rcases hu with rfl | hu
          · exact hle
          · exact hall u hu
      · rw [if_neg h]
        obtain ⟨hmem, hle, hall⟩ := ih v
        refine ⟨?_, hle, ?_⟩
        · rcases hmem with h1 | h1
          · exact Or.inl h1
          · exact Or.inr (Or.inr h1)
        · intro u hu
          rcases hu with rfl | hu
          · exact le_trans hle (not_lt.mp h)
          · exact hall u hu

/-- The reduce of content.js lines 136-138 selects a table value at
minimum absolute distance from the ratio. -/
theorem closestScale_spec (t : ℚ) :
    closestScale t ∈ scaleValues ∧
    ∀ v ∈ scaleValues, |closestScale t - t| ≤ |v - t| := by
  obtain ⟨hmem, hle, hall⟩ := closestFold_spec t
    [1125/1000, 12/10, 125/100, 1333/1000, 1414/1000, 15/10, 1618/1000]
    (1067/1000)
  have e : closestScale t =
      ([1125/1000, 12/10, 125/100, 1333/1000, 1414/1000, 15/10, 1618/1000] :
          List ℚ).foldl
        (fun prev curr => if |curr - t| < |prev - t| then curr else prev)
        (1067/1000) := rfl
  have etail : scaleValues = (1067/1000 : ℚ) ::
      [1125/1000, 12/10, 125/100, 1333/1000, 1414/1000, 15/10, 1618/1000] := rfl
  rw [e, etail]
  constructor
  · rcases hmem with h1 | h1
    · rw [h1]; exact List.mem_cons_self _ _
    · exact List.mem_cons_of_mem _ h1
  · intro v hv
    rcases List.mem_cons.mp hv with rfl | hv
    · exact hle
    · exact hall v hv

/-- C3: type-scale derivation.  When no h1 sample exists, or either
font size fails to parse, or the body size is not strictly positive,
`typeScale` is null.  Otherwise, with ratio
`round((h1Size / bodySize) * 100) / 100`, the reported value is the
table name of a named scale at minimum absolute distance from the
ratio when that distance is at most 0.05, and the plain decimal
rendering of the ratio otherwise; in particular body 16px with h1 20px
reports "Major Third (1.25)" and body 16px with h1 28.8px reports
"1.8". -/
theorem type_scale_spec :
    (∀ b : String, computeTypeScale none b = none) ∧
    (∀ a b : String, parseFloatQ a = none → computeTypeScale (some a) b = none) ∧
    (∀ a b : String, parseFloatQ b = none → computeTypeScale (some a) b = none) ∧
    (∀ (a b : String) (x y : ℚ), parseFloatQ a = some x → parseFloatQ b = some y →
      ¬ 0 < y → computeTypeScale (some a) b = none) ∧
    (∀ (a b : String) (x y : ℚ), parseFloatQ a = some x → parseFloatQ b = some y →
      0 < y →
      ∃ c ∈ scaleValues,
        (∀ v ∈ scaleValues,
          |c - ((jsRound (x / y * 100) : ℚ) / 100)| ≤
            |v - ((jsRound (x / y * 100) : ℚ) / 100)|) ∧
        ((|c - ((jsRound (x / y * 100) : ℚ) / 100)| ≤ 1/20 ∧
            computeTypeScale (some a) b =
              (commonScales.find? (fun p => decide (p.1 = c))).map Prod.snd) ∨
         (¬ |c - ((jsRound (x / y * 100) : ℚ) / 100)| ≤ 1/20 ∧
            computeTypeScale (some a) b =
              some (ratioToString (jsRound (x / y * 100)))))) ∧
    computeTypeScale (some "20px") "16px" = some "Major Third (1.25)" ∧
    computeTypeScale (some "28.8px") "16px" = some "1.8" := by
  have hp20 : parseFloatQ "20px" = some 20 := by
    have h : parseFloatQ "20px" =
        some ((1 : ℚ) * ((20 : ℕ) : ℚ) * (10 : ℚ) ^ (0 : ℤ)) := rfl
    rw [h]; norm_num
  have hp16 : parseFloatQ "16px" = some 16 := by
    have h : parseFloatQ "16px" =
        some ((1 : ℚ) * ((16 : ℕ) : ℚ) * (10 : ℚ) ^ (0 : ℤ)) := rfl
    rw [h]; norm_num
  have hp288 : parseFloatQ "28.8px" = some (144/5) := by
    have h : parseFloatQ "28.8px" =
        some ((1 : ℚ) * (((28 : ℕ) : ℚ) + ((8 : ℕ) : ℚ) / ((10 : ℚ) ^ (1 : ℕ))) *
          (10 : ℚ) ^ (0 : ℤ)) := rfl
    rw [h]; norm_num
  refine ⟨fun b => rfl, ?_, ?_, ?_, ?_, ?ex1, ?ex2⟩
  case ex1 =>
    have hk : jsRound ((20 : ℚ) / 16 * 100) = 125 := by
      unfold jsRound; rw [Int.floor_eq_iff]; norm_num
    have ht : ((125 : ℤ) : ℚ) / 100 = 5/4 := by norm_num
    have hc : closestScale (5/4 : ℚ) = 5/4 := by
      norm_num [closestScale, scaleValues, commonScales, abs_of_nonneg]
    simp only [computeTypeScale, hp20, hp16]
    rw [if_pos (by norm_num : (0 : ℚ) < 16), hk, ht, hc]
    rw [if_pos (by norm_num : |(5/4 : ℚ) - 5/4| ≤ 1/20)]
    norm_num [commonScales, List.find?]
  case ex2 =>
    have hk : jsRound ((144 : ℚ) / 5 / 16 * 100) = 180 := by
      unfold jsRound; rw [Int.floor_eq_iff]; norm_num
    have ht : ((180 : ℤ) : ℚ) / 100 = 9/5 := by norm_num
    have hc : closestScale ((9 : ℚ)/5) = 1618/1000 := by
      norm_num [closestScale, scaleValues, commonScales, abs_of_nonneg]
    simp only [computeTypeScale, hp288, hp16]
    rw [if_pos (by norm_num : (0 : ℚ) < 16), hk, ht, hc]
    rw [if_neg (by norm_num [abs_of_nonneg] : ¬ |(1618/1000 : ℚ) - 9/5| ≤ 1/20)]
    rfl
  · intro a b ha
    cases hb : parseFloatQ b <;> simp [computeTypeScale, ha, hb]
  · intro a b hb
    cases ha : parseFloatQ a <;> simp [computeTypeScale, ha, hb]
  · intro a b x y ha hb hy
    simp [computeTypeScale, ha, hb, hy]
  · intro a b x y ha hb hy
    obtain ⟨hmem, hall⟩ := closestScale_spec ((jsRound (x / y * 100) : ℚ) / 100)
    refine ⟨closestScale ((jsRound (x / y * 100) : ℚ) / 100), hmem, hall, ?_⟩
    by_cases hc :
        |closestScale ((jsRound (x / y * 100) : ℚ) / 100) -
          ((jsRound (x / y * 100) : ℚ) / 100)| ≤ 1/20
    · refine Or.inl ⟨hc, ?_⟩
      simp only [computeTypeScale, ha, hb, if_pos hy]
      rw [if_pos hc]
    · refine Or.inr ⟨hc, ?_⟩
      simp only [computeTypeScale, ha, hb, if_pos hy]
      rw [if_neg hc]

/-- Witness for C3 at body 16px and h1 20px: the parse hypotheses and
positivity discharge concretely, and the characterization is obtained
at the ratio 1.25. -/
theorem type_scale_spec_witness :
    ∃ c ∈ scaleValues,
      (∀ v ∈ scaleValues,
        |c - ((jsRound ((20 : ℚ) / 16 * 100) : ℚ) / 100)| ≤
          |v - ((jsRound ((20 : ℚ) / 16 * 100) : ℚ) / 100)|) ∧
      ((|c - ((jsRound ((20 : ℚ) / 16 * 100) : ℚ) / 100)| ≤ 1/20 ∧
          computeTypeScale (some "20px") "16px" =
            (commonScales.find? (fun p => decide (p.1 = c))).map Prod.snd) ∨
       (¬ |c - ((jsRound ((20 : ℚ) / 16 * 100) : ℚ) / 100)| ≤ 1/20 ∧
          computeTypeScale (some "20px") "16px" =
            some (ratioToString (jsRound ((20 : ℚ) / 16 * 100))))) :=
  type_scale_spec.2.2.2.2.1 "20px" "16px" 20 16
    (by
      have h : parseFloatQ "20px" =
          some ((1 : ℚ) * ((20 : ℕ) : ℚ) * (10 : ℚ) ^ (0 : ℤ)) := rfl
      rw [h]; norm_num)
    (by
      have h : parseFloatQ "16px" =
          some ((1 : ℚ) * ((16 : ℕ) : ℚ) * (10 : ℚ) ^ (0 : ℤ)) := rfl
      rw [h]; norm_num)
    (by norm_num)

/-- The background weight map after one loop iteration. -/
theorem visit_backgroundColors (st : ColorState) (el : Element) :
    (visitElement st el).backgroundColors =
      if bgVisible el.backgroundColor then
        mapAdd st.backgroundColors el.backgroundColor
          (el.clientWidth * el.clientHeight)
      else st.backgroundColors := by
  unfold visitElement
  by_cases h1 : bgVisible el.backgroundColor <;>
    by_cases h2 : el.color != "" <;>
      by_cases h3 : isInteractive el <;>
        by_cases h4 : el.tagName == "A" <;>
          simp [h1, h2, h3, h4]

/-- The text weight map after one loop iteration. -/
theorem visit_textColors (st : ColorState) (el : Element) :
    (visitElement st el).textColors =
      if el.color != "" then
        mapAdd st.textColors el.color el.textContent.length
      else st.textColors := by
  unfold visitElement
  by_cases h1 : bgVisible el.backgroundColor <;>
    by_cases h2 : el.color != "" <;>
      by_cases h3 : isInteractive el <;>
        by_cases h4 : el.tagName == "A" <;>
          simp [h1, h2, h3, h4]

/-- The occurrence count map after one loop iteration. -/
theorem visit_colorMap (st : ColorState) (el : Element) :
    (visitElement st el).colorMap =
      (if el.color != "" then
        mapAdd
          (if bgVisible el.backgroundColor then
            mapAdd st.colorMap el.backgroundColor 1
          else st.colorMap) el.color 1
      else if bgVisible el.backgroundColor then
        mapAdd st.colorMap el.backgroundColor 1
      else st.colorMap) := by
  unfold visitElement
  by_cases h1 : bgVisible el.backgroundColor <;>
    by_cases h2 : el.color != "" <;>
      by_cases h3 : isInteractive el <;>
        by_cases h4 : el.tagName == "A" <;>
          simp [h1, h2, h3, h4]

/-- The accent-candidate set after one loop iteration. -/
theorem visit_buttonColors (st : ColorState) (el : Element) :
    (visitElement st el).buttonColors =
      if isInteractive el && bgVisible el.backgroundColor then
        setAdd st.buttonColors el.backgroundColor
      else st.buttonColors := by
  unfold visitElement
  by_cases h1 : bgVisible el.backgroundColor <;>
    by_cases h2 : el.color != "" <;>
      by_cases h3 : isInteractive el <;>
        by_cases h4 : el.tagName == "A" <;>
          simp [h1, h2, h3, h4]

/-- The link-candidate set after one loop iteration. -/
theorem visit_linkColors (st : ColorState) (el : Element) :
    (visitElement st el).linkColors =
      if isInteractive el && (el.tagName == "A" && el.color != "") then
        setAdd st.linkColors el.color
      else st.linkColors := by
  unfold visitElement
  by_cases h1 : bgVisible el.backgroundColor <;>
    by_cases h2 : el.color != "" <;>
      by_cases h3 : isInteractive el <;>
        by_cases h4 : el.tagName == "A" <;>
          simp [h1, h2, h3, h4]

/-- Every entry of `mapAdd m k v` has the new key or was already in
the map. -/
theorem mem_mapAdd (m : WeightMap) (k : String) (v : Nat) (p : String × Nat)
    (hp : p ∈ mapAdd m k v) : p.1 = k ∨ p ∈ m := by
  unfold mapAdd at hp
  by_cases h : m.any (fun q => q.1 == k)
  · rw [if_pos h] at hp
    rcases List.mem_map.mp hp with ⟨q, hq, hpq⟩
    by_cases hk : q.1 == k
    · left
      rw [if_pos hk] at hpq
      rw [← hpq]
      exact beq_iff_eq.mp hk
    · right
      rw [if_neg hk] at hpq
      rw [← hpq]
      exact hq
  · rw [if_neg h] at hp
    rcases List.mem_append.mp hp with h1 | h1
    · right; exact h1
    · left
      rcases List.mem_singleton.mp h1 with rfl
      rfl

/-- Every member of `setAdd s k` is the new key or was already in the
set. -/
theorem mem_setAdd (s : List String) (k c : String)
    (hc : c ∈ setAdd s k) : c ∈ s ∨ c = k := by
  unfold setAdd at hc
  by_cases h : s.contains k
  · rw [if_pos h] at hc; left; exact hc
  · rw [if_neg h] at hc
    rcases List.mem_append.mp hc with h1 | h1
    · left; exact h1
    · right; exact List.mem_singleton.mp h1

/-- Key provenance for the background weight map over the whole walk:
every recorded key comes from the initial state or from a traversed
element with a visible background. -/
theorem bg_keys_of_fold (es : List Element) :
    ∀ (st : ColorState) (p : String × Nat),
      p ∈ (es.foldl visitElement st).backgroundColors →
      p ∈ st.backgroundColors ∨
        ∃ el ∈ es, bgVisible el.backgroundColor = true ∧
          p.1 = el.backgroundColor := by
  induction es with
  | nil => intro st p hp; left; exact hp
  | cons el es ih =>
      intro st p hp
      rw [List.foldl_cons] at hp
      rcases ih (visitElement st el) p hp with h1 | ⟨el', hel', hv, hk⟩
      · rw [visit_backgroundColors] at h1
        by_cases hb : bgVisible el.backgroundColor
        · rw [if_pos hb] at h1
          rcases mem_mapAdd _ _ _ _ h1 with hk | hm
          · right; exact ⟨el, List.mem_cons_self _ _, hb, hk⟩
          · left; exact hm
        · rw [if_neg hb] at h1; left; exact h1
      · right; exact ⟨el', List.mem_cons_of_mem _ hel', hv, hk⟩

/-- Key provenance for the occurrence count map: every key comes from
the initial state, from a visible background of a traversed element,
or from a nonempty text color of a traversed element. -/
theorem cm_keys_of_fold (es : List Element) :
    ∀ (st : ColorState) (p : String × Nat),
      p ∈ (es.foldl visitElement st).colorMap →
      p ∈ st.colorMap ∨
        ∃ el ∈ es,
          (bgVisible el.backgroundColor = true ∧ p.1 = el.backgroundColor) ∨
          (el.color ≠ "" ∧ p.1 = el.color) := by
  induction es with
  | nil => intro st p hp; left; exact hp
  | cons el es ih =>
      intro st p hp
      rw [List.foldl_cons] at hp
      rcases ih (visitElement st el) p hp with h1 | ⟨el', hel', hca⟩
      · rw [visit_colorMap] at h1
        have hbase : p ∈ (if bgVisible el.backgroundColor then
            mapAdd st.colorMap el.backgroundColor 1 else st.colorMap) →
            p ∈ st.colorMap ∨
              ∃ el'' ∈ el :: es,
                (bgVisible el''.backgroundColor = true ∧
                  p.1 = el''.backgroundColor) ∨
                (el''.color ≠ "" ∧ p.1 = el''.color) := by
          intro hq
          by_cases hb : bgVisible el.backgroundColor
          · rw [if_pos hb] at hq
            rcases mem_mapAdd _ _ _ _ hq with hk | hm
            · right
              exact ⟨el, List.mem_cons_self _ _, Or.inl ⟨hb, hk⟩⟩
            · left; exact hm
          · rw [if_neg hb] at hq; left; exact hq
        by_cases hc : el.color != ""
        · rw [if_pos hc] at h1
          rcases mem_mapAdd _ _ _ _ h1 with hk | hm
          · right
            refine ⟨el, List.mem_cons_self _ _, Or.inr ⟨?_, hk⟩⟩
            simpa using hc
          · exact hbase hm
        · rw [if_neg hc] at h1
          exact hbase h1
      · right; exact ⟨el', List.mem_cons_of_mem _ hel', hca⟩

/-- Key provenance for the accent-candidate set: every candidate comes
from the initial state or is the visible background of a traversed
interactive element. -/
theorem btn_keys_of_fold (es : List Element) :
    ∀ (st : ColorState) (c : String),
      c ∈ (es.foldl visitElement st).buttonColors →
      c ∈ st.buttonColors ∨
        ∃ el ∈ es, bgVisible el.backgroundColor = true ∧
          c = el.backgroundColor := by
  induction es with
  | nil => intro st c hc; left; exact hc
  | cons el es ih =>
      intro st c hc
      rw [List.foldl_cons] at hc
      rcases ih (visitElement st el) c hc with h1 | ⟨el', hel', hv, hk⟩
      · rw [visit_buttonColors] at h1
        by_cases hb : isInteractive el && bgVisible el.backgroundColor
        · rw [if_pos hb] at h1
          rcases mem_setAdd _ _ _ h1 with hm | hk
          · left; exact hm
          · right
            refine ⟨el, List.mem_cons_self _ _, ?_, hk⟩
            exact (Bool.and_eq_true _ _).mp hb |>.2
        · rw [if_neg hb] at h1; left; exact h1
      · right; exact ⟨el', List.mem_cons_of_mem _ hel', hv, hk⟩

/-- One deduplication step keeps the canonical colors pairwise
distinct: an update preserves every color field and an append only
adds a hex that is not yet present. -/
theorem insertUnique_pairwise (acc : List PaletteEntry) (c : String) (n : Nat)
    (h : acc.Pairwise (fun a b => a.color ≠ b.color)) :
    (insertUnique acc c n).Pairwise (fun a b => a.color ≠ b.color) := by
  cases hx : rgbaToHex c with
  | none => simp only [insertUnique, hx]; exact h
  | some hex =>
      simp only [insertUnique, hx]
      by_cases hany : acc.any (fun e => e.color == hex)
      · rw [if_pos hany]
        have hcol : ∀ e : PaletteEntry,
            ((if e.color == hex && n > e.count then
              { e with count := n, originalColor := c } else e) :
              PaletteEntry).color = e.color := by
          intro e; split <;> rfl
        refine (List.pairwise_map).mpr (h.imp ?_)
        intro a b hab
        rw [hcol a, hcol b]
        exact hab
      · rw [if_neg hany]
        rw [List.pairwise_append]
        refine ⟨h, List.pairwise_singleton _ _, ?_⟩
        intro a ha b hb
        rcases List.mem_singleton.mp hb with rfl
        intro hEq
        apply hany
        exact List.any_eq_true.mpr ⟨a, ha, by simp [hEq]⟩

/-- Provenance of the color and raw form of an entry through one
deduplication step. -/
theorem insertUnique_orig (acc : List PaletteEntry) (c : String) (n : Nat)
    (e : PaletteEntry) (he : e ∈ insertUnique acc c n) :
    (∃ eo ∈ acc, e.color = eo.color ∧ e.originalColor = eo.originalColor) ∨
    (rgbaToHex c = some e.color ∧ e.originalColor = c) := by
  cases hx : rgbaToHex c with
  | none =>
      simp only [insertUnique, hx] at he
      left; exact ⟨e, he, rfl, rfl⟩
  | some hex =>
      simp only [insertUnique, hx] at he
      by_cases hany : acc.any (fun x => x.color == hex)
      · rw [if_pos hany] at he
        rcases List.mem_map.mp he with ⟨eo, heo, hfe⟩
        by_cases hcond : eo.color == hex && n > eo.count
        · rw [if_pos hcond] at hfe
          right
          have hcolhex : eo.color = hex :=
            beq_iff_eq.mp ((Bool.and_eq_true _ _).mp hcond).1
          constructor
          · rw [← hfe]
            show some hex = some eo.color
            rw [hcolhex]
          · rw [← hfe]
        · rw [if_neg hcond] at hfe
          left
          exact ⟨eo, heo, by rw [← hfe], by rw [← hfe]⟩
      · rw [if_neg hany] at he
        rcases List.mem_append.mp he with h1 | h1
        · left; exact ⟨e, h1, rfl, rfl⟩
        · rcases List.mem_singleton.mp h1 with rfl
          right; exact ⟨rfl, rfl⟩

/-- Every canonical color present before a deduplication step is still
present after it. -/
theorem insertUnique_color_mono (acc : List PaletteEntry) (c : String)
    (n : Nat) (e : PaletteEntry) (he : e ∈ acc) :
    ∃ f ∈ insertUnique acc c n, f.color = e.color := by
  cases hx : rgbaToHex c with
  | none => simp only [insertUnique, hx]; exact ⟨e, he, rfl⟩
  | some hex =>
      simp only [insertUnique, hx]
      by_cases hany : acc.any (fun x => x.color == hex)
      · rw [if_pos hany]
        refine ⟨(if e.color == hex && n > e.count then
          { e with count := n, originalColor := c } else e),
          List.mem_map_of_mem _ he, ?_⟩
        split <;> rfl
      · rw [if_neg hany]
        exact ⟨e, List.mem_append_left _ he, rfl⟩

/-- After processing a color that normalizes to `hex`, some entry
carries `hex`. -/
theorem insertUnique_new (acc : List PaletteEntry) (c : String) (n : Nat)
    (hex : String) (hx : rgbaToHex c = some hex) :
    ∃ e ∈ insertUnique acc c n, e.color = hex := by
  simp only [insertUnique, hx]
  by_cases hany : acc.any (fun x => x.color == hex)
  · rw [if_pos hany]
    rcases List.any_eq_true.mp hany with ⟨eo, heo, heq⟩
    refine ⟨(if eo.color == hex && n > eo.count then
      { eo with count := n, originalColor := c } else eo),
      List.mem_map_of_mem _ heo, ?_⟩
    have hc : eo.color = hex := beq_iff_eq.mp heq
    split <;> simpa using hc
  · rw [if_neg hany]
    exact ⟨⟨hex, c, n⟩, List.mem_append_right _ (List.mem_singleton_self _), rfl⟩

/-- The dedup fold keeps canonical colors pairwise distinct. -/
theorem dedupFold_pairwise (cm : WeightMap) :
    ∀ acc : List PaletteEntry, acc.Pairwise (fun a b => a.color ≠ b.color) →
      (cm.foldl (fun acc p => insertUnique acc p.1 p.2) acc).Pairwise
        (fun a b => a.color ≠ b.color) := by
  induction cm with
  | nil => intro acc h; exact h
  | cons p cm ih =>
      intro acc h
      exact ih _ (insertUnique_pairwise _ _ _ h)

/-- C2 support: the `uniqueColors` entries have pairwise distinct
canonical colors. -/
theorem uniqueColors_pairwise (cm : WeightMap) :
    (uniqueColors cm).Pairwise (fun a b => a.color ≠ b.color) :=
  dedupFold_pairwise cm [] List.Pairwise.nil

/-- Provenance of the raw form and color of every entry of the dedup
fold. -/
theorem dedupFold_orig (cm : WeightMap) :
    ∀ acc e, e ∈ cm.foldl (fun acc p => insertUnique acc p.1 p.2) acc →
      (∃ eo ∈ acc, e.color = eo.color ∧ e.originalColor = eo.originalColor) ∨
      ∃ p ∈ cm, rgbaToHex p.1 = some e.color ∧ e.originalColor = p.1 := by
  induction cm with
  | nil => intro acc e he; left; exact ⟨e, he, rfl, rfl⟩
  | cons p cm ih =>
      intro acc e he
      rw [List.foldl_cons] at he
      rcases ih _ e he with ⟨eo, heo, hc, ho⟩ | ⟨q, hq, hqh⟩
      · rcases insertUnique_orig _ _ _ _ heo with
          ⟨eo2, heo2, hc2, ho2⟩ | ⟨hx2, ho2⟩
        · left; exact ⟨eo2, heo2, hc.trans hc2, ho.trans ho2⟩
        · right
          refine ⟨p, List.mem_cons_self _ _, ?_, ho.trans ho2⟩
          rw [hc]; exact hx2
      · right; exact ⟨q, List.mem_cons_of_mem _ hq, hqh⟩

/-- Every `uniqueColors` entry keeps the raw color string of some
occurrence-map key, and its color field is that raw form normalized
(never null). -/
theorem uniqueColors_orig (cm : WeightMap) (e : PaletteEntry)
    (he : e ∈ uniqueColors cm) :
    ∃ p ∈ cm, p.1 = e.originalColor ∧
      rgbaToHex e.originalColor = some e.color := by
  rcases dedupFold_orig cm [] e he with ⟨eo, heo, _⟩ | ⟨p, hp, hx, ho⟩
  · exact absurd heo (List.not_mem_nil _)
  · exact ⟨p, hp, ho.symm, by rw [ho]; exact hx⟩

/-- Canonical colors survive the rest of the dedup fold. -/
theorem dedupFold_color_mono (cm : WeightMap) :
    ∀ acc e, e ∈ acc →
      ∃ f ∈ cm.foldl (fun acc p => insertUnique acc p.1 p.2) acc,
        f.color = e.color := by
  induction cm with
  | nil => intro acc e he; exact ⟨e, he, rfl⟩
  | cons p cm ih =>
      intro acc e he
      rw [List.foldl_cons]
      rcases insertUnique_color_mono acc p.1 p.2 e he with ⟨f, hf, hfc⟩
      rcases ih _ f hf with ⟨g, hg, hgc⟩
      exact ⟨g, hg, hgc.trans hfc⟩

/-- A key of the occurrence map that normalizes to `hex` always leaves
an entry with color `hex` in the dedup fold. -/
theorem dedupFold_exists (cm : WeightMap) :
    ∀ acc (c : String) (n : Nat) (hex : String), (c, n) ∈ cm →
      rgbaToHex c = some hex →
      ∃ e ∈ cm.foldl (fun acc p => insertUnique acc p.1 p.2) acc,
        e.color = hex := by
  induction cm with
  | nil => intro acc c n hex h _; exact absurd h (List.not_mem_nil _)
  | cons p cm ih =>
      intro acc c n hex hm hx
      rw [List.foldl_cons]
      rcases List.mem_cons.mp hm with heq | hm'
      · rcases heq with rfl
        rcases insertUnique_new acc c n hex hx with ⟨e, he, hec⟩
        rcases dedupFold_color_mono cm _ e he with ⟨f, hf, hfc⟩
        exact ⟨f, hf, hfc.trans hec⟩
      · exact ih _ c n hex hm' hx

/-- C8 support: a recorded color that normalizes to `hex` appears among
the deduplicated entries. -/
theorem uniqueColors_exists (cm : WeightMap) (c : String) (n : Nat)
    (hex : String) (hm : (c, n) ∈ cm) (hx : rgbaToHex c = some hex) :
    ∃ e ∈ uniqueColors cm, e.color = hex :=
  dedupFold_exists cm [] c n hex hm hx

/-- Evaluation of the stable sort on a two-element list. -/
theorem mergeSort_pair {α : Type} (le : α → α → Bool) (a b : α) :
    [a, b].mergeSort le = if le a b then [a, b] else [b, a] := by
  rw [List.mergeSort]
  simp [List.splitInTwo, List.splitAt, List.splitAt.go, List.merge]

/-- The palette comparator is transitive. -/
theorem entryLe_trans (a b c : PaletteEntry) :
    entryLe a b → entryLe b c → entryLe a c := by
  simp only [entryLe, decide_eq_true_eq]
  omega

/-- The palette comparator is total. -/
theorem entryLe_total (a b : PaletteEntry) : entryLe a b || entryLe b a := by
  simp only [entryLe, Bool.or_eq_true, decide_eq_true_eq]
  omega

/-- The weight comparator is transitive. -/
theorem weightLe_trans (a b c : String × Nat) :
    weightLe a b → weightLe b c → weightLe a c := by
  simp only [weightLe, decide_eq_true_eq]
  omega

/-- The weight comparator is total. -/
theorem weightLe_total (a b : String × Nat) : weightLe a b || weightLe b a := by
  simp only [weightLe, Bool.or_eq_true, decide_eq_true_eq]
  omega

/-- C2: for every analyzed page, the entries of `palette.all` have
pairwise distinct canonical `color` values, are sorted by descending
occurrence count, and number at most 12; moreover `all` is the
12-entry truncation of a stable descending sort of the deduplicated
entries: it is a permutation of them, and any two entries already in
descending-count position in first-encountered order (in particular
count ties) keep their relative order through the sort. -/
theorem palette_all_invariant (body : Dom) :
    (getColors body).all.length ≤ 12 ∧
    (getColors body).all.Pairwise (fun a b => a.color ≠ b.color) ∧
    (getColors body).all.Pairwise (fun a b => b.count ≤ a.count) ∧
    (getColors body).all =
      (sortedUnique (colorStateOf body).colorMap).take 12 ∧
    (sortedUnique (colorStateOf body).colorMap).Perm
      (uniqueColors (colorStateOf body).colorMap) ∧
    (∀ a b : PaletteEntry,
      List.Sublist [a, b] (uniqueColors (colorStateOf body).colorMap) →
      b.count ≤ a.count →
      List.Sublist [a, b] (sortedUnique (colorStateOf body).colorMap)) := by
  have hall : (getColors body).all =
      (sortedUnique (colorStateOf body).colorMap).take 12 := rfl
  have hperm : (sortedUnique (colorStateOf body).colorMap).Perm
      (uniqueColors (colorStateOf body).colorMap) :=
    List.mergeSort_perm _ _
  have hsorted : (sortedUnique (colorStateOf body).colorMap).Pairwise
      (fun a b => entryLe a b = true) :=
    List.sorted_mergeSort entryLe_trans entryLe_total _
  have hsorted' : (sortedUnique (colorStateOf body).colorMap).Pairwise
      (fun a b => b.count ≤ a.count) := by
    refine hsorted.imp ?_
    intro a b hab
    simpa [entryLe] using hab
  have hdistinct : (sortedUnique (colorStateOf body).colorMap).Pairwise
      (fun a b => a.color ≠ b.color) := by
    exact ((hperm.pairwise_iff fun h => Ne.symm h).mpr
      (uniqueColors_pairwise (colorStateOf body).colorMap))
  have htake : List.Sublist ((sortedUnique (colorStateOf body).colorMap).take 12)
      (sortedUnique (colorStateOf body).colorMap) := List.take_sublist _ _
  refine ⟨?_, ?_, ?_, hall, hperm, ?_⟩
  · rw [hall]
    exact List.length_take_le _ _
  · rw [hall]
    exact hdistinct.sublist htake
  · rw [hall]
    exact hsorted'.sublist htake
  · intro a b hsub hcnt
    have hpw : List.Pairwise (fun x y : PaletteEntry => entryLe x y = true)
        [a, b] := by
      simp [entryLe, hcnt]
    exact List.sublist_mergeSort entryLe_trans entryLe_total hpw hsub

/-- Witness for C2: on a page with two colors of equal occurrence
count, the pair in first-encountered order stays in that order through
the stable sort. -/
theorem palette_all_invariant_witness :
    List.Sublist
      [(⟨"#010203", "rgb(1, 2, 3)", 1⟩ : PaletteEntry),
       ⟨"#040506", "rgb(4, 5, 6)", 1⟩]
      (sortedUnique (colorStateOf pageTieBreak).colorMap) :=
  (palette_all_invariant pageTieBreak).2.2.2.2.2 _ _
    (List.Sublist.refl _) (le_refl 1)

/-- C7 counterexample: the code filters transparency only on the
background channel.  On a page whose single element has the fully
transparent text color, that color is recorded in the text weight map
with the element's character count, in the occurrence count map, and
it surfaces as the `text` role field (with a null canonical hex) —
contradicting the claim that a fully transparent color enters no
weight, no count and no role field. -/
theorem transparent_text_recorded :
    (getColors pageTransparentText).text =
      some ⟨none, "rgba(0, 0, 0, 0)"⟩ ∧
    (colorStateOf pageTransparentText).textColors =
      [("rgba(0, 0, 0, 0)", 5)] ∧
    (colorStateOf pageTransparentText).colorMap =
      [("rgba(0, 0, 0, 0)", 1)] := by
  refine ⟨?_, rfl, rfl⟩
  show roleOfHead
      ((colorStateOf pageTransparentText).textColors.mergeSort weightLe) =
    some ⟨none, "rgba(0, 0, 0, 0)"⟩
  have hts : (colorStateOf pageTransparentText).textColors =
      [("rgba(0, 0, 0, 0)", 5)] := rfl
  rw [hts, List.mergeSort_singleton]
  rfl

/-- C7 (amended): a fully transparent background color is never
recorded — it enters no background weight, no occurrence count as a
background, and no accent-candidate set — and no transparent color
ever appears in `palette.all`; however a fully transparent text color
is recorded in the text weight map, the occurrence count map and the
link candidates, and can surface as the text or link role with a null
canonical hex. -/
theorem transparent_excluded_from_background_and_all (body : Dom) :
    (∀ p ∈ (colorStateOf body).backgroundColors, bgVisible p.1 = true) ∧
    (∀ c ∈ (colorStateOf body).buttonColors, bgVisible c = true) ∧
    (∀ e ∈ (getColors body).all,
      e.originalColor ≠ "" ∧ e.originalColor ≠ "transparent" ∧
        e.originalColor ≠ "rgba(0, 0, 0, 0)") := by
  refine ⟨?_, ?_, ?_⟩
  · intro p hp
    rcases bg_keys_of_fold (walkerSeq body) initColorState p hp with
      h | ⟨el, _, hv, hk⟩
    · exact absurd h (List.not_mem_nil _)
    · rw [hk]; exact hv
  · intro c hc
    rcases btn_keys_of_fold (walkerSeq body) initColorState c hc with
      h | ⟨el, _, hv, hk⟩
    · exact absurd h (List.not_mem_nil _)
    · rw [hk]; exact hv
  · intro e he
    have he1 : e ∈ (sortedUnique (colorStateOf body).colorMap).take 12 := he
    have he2 : e ∈ uniqueColors (colorStateOf body).colorMap :=
      (List.mem_mergeSort).mp (List.take_subset _ _ he1)
    rcases uniqueColors_orig _ e he2 with ⟨p, _, _, hx⟩
    refine ⟨?_, ?_, ?_⟩ <;> intro hcontra <;> rw [hcontra] at hx <;>
      simp [rgbaToHex] at hx

/-- Witness for C7 at a concrete page with a real background: the
recorded background key passes the transparency test. -/
theorem transparent_excluded_witness :
    bgVisible "rgb(255, 0, 0)" = true :=
  (transparent_excluded_from_background_and_all pageTwoBg).1
    ("rgb(255, 0, 0)", 100) (List.mem_cons_self _ _)

/-- C8 counterexample: an element whose computed background color
string has no rgb/rgba form is NOT skipped from the palette: rgbaToHex
returns the original string unchanged (content.js line 222), which is
truthy, so the color is deduplicated under its own raw string and
appears in `palette.all`. -/
theorem unparsed_color_not_skipped :
    (getColors pageUnparsedBg).all = [⟨"foo-color", "foo-color", 1⟩] := by
  show ((uniqueColors
      (colorStateOf pageUnparsedBg).colorMap).mergeSort entryLe).take 12 = _
  have h : uniqueColors (colorStateOf pageUnparsedBg).colorMap =
      [⟨"foo-color", "foo-color", 1⟩] := rfl
  rw [h, List.mergeSort_singleton]
  rfl

/-- C8 (amended): the color analyzer never raises on an unparseable
background color string; rather than being excluded, the string is
passed through normalization unchanged and participates in
deduplication keyed by its own raw form, so an entry with that exact
string as its canonical color is present among the deduplicated
entries (and reaches `palette.all` subject only to the top-12
truncation). -/
theorem unparsed_color_included (body : Dom) (c : String) (n : Nat)
    (hmem : (c, n) ∈ (colorStateOf body).colorMap)
    (hfind : findRgb c.toList = none)
    (h1 : c ≠ "") (h2 : c ≠ "transparent") (h3 : c ≠ "rgba(0, 0, 0, 0)") :
    rgbaToHex c = some c ∧
    ∃ e ∈ uniqueColors (colorStateOf body).colorMap, e.color = c := by
  have hcond : (c == "" || c == "transparent" || c == "rgba(0, 0, 0, 0)") =
      false := by
    simp [h1, h2, h3]
  have hx : rgbaToHex c = some c := by
    have hfind2 : findRgb c.data = none := hfind
    simp [rgbaToHex, h1, h2, h3, hfind2]
  exact ⟨hx, uniqueColors_exists _ c n c hmem hx⟩

/-- Witness for C8 at a concrete page: the unparseable background
"foo-color" passes through unchanged and owns a deduplicated entry. -/
theorem unparsed_color_included_witness :
    rgbaToHex "foo-color" = some "foo-color" ∧
    ∃ e ∈ uniqueColors (colorStateOf pageUnparsedBg).colorMap,
      e.color = "foo-color" :=
  unparsed_color_included pageUnparsedBg "foo-color" 1
    (List.mem_cons_self _ _) rfl (by decide) (by decide) (by decide)

/-- C9: `palette.background` is null exactly when no non-transparent
background was recorded; otherwise it is the canonical hex (with raw
form) of a recorded raw background color whose accumulated
width-by-height footprint is greatest; and on the concrete page with
exactly two backgrounded elements of footprints 100 and 50, the
100-footprint color wins. -/
theorem background_role_max (body : Dom) :
    ((colorStateOf body).backgroundColors = [] ↔
      (getColors body).background = none) ∧
    ((colorStateOf body).backgroundColors ≠ [] →
      ∃ c w, (c, w) ∈ (colorStateOf body).backgroundColors ∧
        (∀ p ∈ (colorStateOf body).backgroundColors, p.2 ≤ w) ∧
        (getColors body).background = some ⟨rgbaToHex c, c⟩) ∧
    (getColors pageTwoBg).background =
      some ⟨some "#ff0000", "rgb(255, 0, 0)"⟩ := by
  have hb : (getColors body).background =
      roleOfHead ((colorStateOf body).backgroundColors.mergeSort weightLe) :=
    rfl
  refine ⟨⟨?_, ?_⟩, ?_, ?_⟩
  · intro h
    rw [hb, h, List.mergeSort_nil]
    rfl
  · intro h
    cases hms : (colorStateOf body).backgroundColors.mergeSort weightLe with
    | nil =>
        have hlen := congrArg List.length hms
        simp only [List.length_mergeSort, List.length_nil] at hlen
        exact List.eq_nil_of_length_eq_zero hlen
    | cons q l =>
        rw [hb, hms] at h
        obtain ⟨qc, qw⟩ := q
        exact Option.noConfusion h
  · intro hne
    cases hms : (colorStateOf body).backgroundColors.mergeSort weightLe with
    | nil =>
        exfalso
        have hlen := congrArg List.length hms
        simp only [List.length_mergeSort, List.length_nil] at hlen
        exact hne (List.eq_nil_of_length_eq_zero hlen)
    | cons q l =>
        obtain ⟨qc, qw⟩ := q
        refine ⟨qc, qw, ?_, ?_, ?_⟩
        · have hm : (qc, qw) ∈
              (colorStateOf body).backgroundColors.mergeSort weightLe := by
            rw [hms]; exact List.mem_cons_self _ _
          exact (List.mem_mergeSort).mp hm
        · intro p hp
          have hpm : p ∈ (qc, qw) :: l := by
            rw [← hms]; exact (List.mem_mergeSort).mpr hp
          have hsorted : ((qc, qw) :: l).Pairwise
              (fun a b => weightLe a b = true) := by
            rw [← hms]
            exact List.sorted_mergeSort weightLe_trans weightLe_total _
          rcases List.mem_cons.mp hpm with rfl | hpl
          · exact le_refl _
          · have hle := (List.pairwise_cons.mp hsorted).1 p hpl
            simpa [weightLe] using hle
        · rw [hb, hms]
          rfl
  · show roleOfHead
        ((colorStateOf pageTwoBg).backgroundColors.mergeSort weightLe) = _
    have h : (colorStateOf pageTwoBg).backgroundColors =
        [("rgb(255, 0, 0)", 100), ("rgb(0, 0, 255)", 50)] := rfl
    rw [h, mergeSort_pair]
    rw [if_pos (by decide : weightLe ("rgb(255, 0, 0)", 100)
      ("rgb(0, 0, 255)", 50) = true)]
    rfl

/-- Witness for C9: the two-element page has a nonempty background
map, and the theorem produces its maximal-footprint color. -/
theorem background_role_max_witness :
    ∃ c w, (c, w) ∈ (colorStateOf pageTwoBg).backgroundColors ∧
      (∀ p ∈ (colorStateOf pageTwoBg).backgroundColors, p.2 ≤ w) ∧
      (getColors pageTwoBg).background = some ⟨rgbaToHex c, c⟩ :=
  (background_role_max pageTwoBg).2.1
    (by
      intro h
      have h2 : ((("rgb(255, 0, 0)", 100) : String × Nat) ::
          [(("rgb(0, 0, 255)" : String), (50 : Nat))]) = [] := h
      exact List.noConfusion h2)

/-- C10: the TreeWalker rooted at the body visits only strict
descendants, so the whole color analysis is independent of the body
element's own styles; in particular, when no traversed descendant has
a visible background and no descendant text color coincides with the
body's own background color, `palette.background` is null and the
body's background color is absent from `palette.all`. -/
theorem body_never_sampled (e e2 : Element) (cs : List Dom)
    (hbg : ∀ el ∈ preorderList cs, bgVisible el.backgroundColor = false)
    (htext : ∀ el ∈ preorderList cs, el.color ≠ e.backgroundColor) :
    getColors (.node e cs) = getColors (.node e2 cs) ∧
    (getColors (.node e cs)).background = none ∧
    ∀ en ∈ (getColors (.node e cs)).all,
      en.originalColor ≠ e.backgroundColor := by
  refine ⟨rfl, ?_, ?_⟩
  · have hempty : (colorStateOf (.node e cs)).backgroundColors = [] := by
      rw [List.eq_nil_iff_forall_not_mem]
      intro p hp
      rcases bg_keys_of_fold (preorderList cs) initColorState p hp with
        h | ⟨el, hel, hv, _⟩
      · exact List.not_mem_nil _ h
      · rw [hbg el hel] at hv
        exact Bool.noConfusion hv
    show roleOfHead
        (((colorStateOf (.node e cs)).backgroundColors).mergeSort weightLe) =
      none
    rw [hempty, List.mergeSort_nil]
    rfl
  · intro en hen
    have hen1 : en ∈
        (sortedUnique (colorStateOf (.node e cs)).colorMap).take 12 := hen
    have hen2 : en ∈ uniqueColors (colorStateOf (.node e cs)).colorMap :=
      (List.mem_mergeSort).mp (List.take_subset _ _ hen1)
    rcases uniqueColors_orig _ en hen2 with ⟨p, hp, hpe, _⟩
    rcases cm_keys_of_fold (preorderList cs) initColorState p hp with
      h | ⟨el, hel, hca⟩
    · exact absurd h (List.not_mem_nil _)
    · rcases hca with ⟨hv, hk⟩ | ⟨_, hk⟩
      · rw [hbg el hel] at hv
        exact Bool.noConfusion hv
      · rw [← hpe, hk]
        exact htext el hel

/-- Witness for C10: a page whose only non-transparent background sits
on the body element publishes a null background role. -/
theorem body_never_sampled_witness :
    (getColors pageBodyBg).background = none :=
  (body_never_sampled bodyBgEl bodyBgEl [.node textOnlyEl []]
    (by decide) (by decide)).2.1

end SiteInfoExt
